import Mathlib

/-!
Verification of the hls-stream-extractor repository.

URLs and other JavaScript strings are modelled as `List Char`.  Each
definition below is a shallow embedding of a function of the repository:
the pool-based extractor (`api/extract.js`, required by `server.js`) and
the god-mode serverless variant, the browser pool, the result cache and
the request admission queue.  Theorems settle the frozen claims about the
natural-language specification.
-/

abbrev Str := List Char

/-- `leadEq pat s` is true when `pat` is an initial run of `s`
(character-for-character equality). -/
def leadEq : Str → Str → Bool
  | [], _ => true
  | _ :: _, [] => false
  | p :: ps, c :: cs => p == c && leadEq ps cs

/-- JavaScript `s.includes(pat)`: `pat` occurs contiguously inside `s`
(case-sensitive, exactly as `String.prototype.includes`). -/
def includes : Str → Str → Bool
  | [], pat => leadEq pat []
  | c :: t, pat => leadEq pat (c :: t) || includes t pat

/-- ASCII lower-casing of a string, modelling the effect of a
case-insensitive (`/i`) regular-expression literal. -/
def lowerStr (s : Str) : Str := s.map Char.toLower

/-- JavaScript line terminators, which `.` in a regular expression never
matches. -/
def isLineTerm (c : Char) : Bool :=
  c == '\n' || c == '\r' || c.toNat == 0x2028 || c.toNat == 0x2029

/-- Test of the regex fragment `pat(\?|$)` against a string: some
occurrence of `pat` is followed by `?` or by the end of the string. -/
def endOrQ (pat : Str) : Str → Bool
  | [] => false
  | c :: t =>
    (leadEq pat (c :: t) &&
      (match (c :: t).drop pat.length with
        | [] => true
        | q :: _ => q == '?')) || endOrQ pat t

/-- Scanning part of the regex fragment `.*b`: `b` occurs further on,
with no line terminator crossed before it starts. -/
def thenSkipTo (b : Str) : Str → Bool
  | [] => leadEq b []
  | c :: t => leadEq b (c :: t) || (!(isLineTerm c) && thenSkipTo b t)

/-- Test of the regex `a.*b` against a string: an occurrence of `a`, then
arbitrary non-terminator characters, then an occurrence of `b`. -/
def dotStarPat (a b : Str) : Str → Bool
  | [] => false
  | c :: t => (leadEq a (c :: t) && thenSkipTo b ((c :: t).drop a.length)) || dotStarPat a b t

/-- `STREAM_PATTERNS` test of the pool-based extractor: the nine
case-insensitive regular expressions of `looksLikeStream`, applied to the
lower-cased URL. -/
def looksLikeStream (url : Str) : Bool :=
  let u := lowerStr url
  endOrQ (".m3u8").data u ||
  includes u ("master.m3u8").data ||
  includes u ("index.m3u8").data ||
  includes u ("playlist.m3u8").data ||
  dotStarPat ("manifest").data (".m3u8").data u ||
  dotStarPat ("video").data (".m3u8").data u ||
  dotStarPat ("hls").data (".m3u8").data u ||
  endOrQ (".mpd").data u ||
  endOrQ (".mp4").data u

/-- `MASTER_PATTERNS` of the pool-based extractor:
`[/master/i, /index/i, /manifest/i, /playlist/i]`. -/
def MASTER_PATTERNS : List Str :=
  [("master").data, ("index").data, ("manifest").data, ("playlist").data]

/-- `isMasterPlaylist` of the pool-based extractor:
`MASTER_PATTERNS.some(p => p.test(url))`. -/
def isMasterPlaylist (url : Str) : Bool :=
  MASTER_PATTERNS.any (fun p => includes (lowerStr url) p)

/-- `MASTER_PATTERNS` of the god-mode variant, which also lists
`/main/i`. -/
def MASTER_PATTERNS_v2 : List Str :=
  [("master").data, ("index").data, ("manifest").data, ("playlist").data, ("main").data]

/-- `isMasterPlaylist` of the god-mode variant. -/
def isMasterPlaylist_v2 (url : Str) : Bool :=
  MASTER_PATTERNS_v2.any (fun p => includes (lowerStr url) p)

/-- The segment/chunk penalty test `/segment|chunk|\.ts\?/.test(url)`
(the regex carries no `i` flag, so matching is case-sensitive). -/
def segmentChunkTest (url : Str) : Bool :=
  includes url ("segment").data || includes url ("chunk").data || includes url (".ts?").data

/-- `getStreamPriority` of the pool-based extractor (`api/extract.js`).
The source initialises `score = 0` and runs a sequence of independent
`if (url.includes(k)) score += n` statements; each statement is embedded
as one guarded contribution, in source order: +10 `.m3u8`, +5 `master`,
+4 `index`, +3 `manifest`, −5 segment/chunk. -/
def getStreamPriority (url : Str) : Int :=
  (if includes url (".m3u8").data then 10 else 0) +
  (if includes url ("master").data then 5 else 0) +
  (if includes url ("index").data then 4 else 0) +
  (if includes url ("manifest").data then 3 else 0) +
  (if segmentChunkTest url then -5 else 0)

/-- `getStreamPriority` of the god-mode variant, embedded the same way;
it additionally adds +3 `playlist`, +8 `.mpd` and +2 `.mp4`. -/
def getStreamPriority_v2 (url : Str) : Int :=
  (if includes url (".m3u8").data then 10 else 0) +
  (if includes url ("master").data then 5 else 0) +
  (if includes url ("index").data then 4 else 0) +
  (if includes url ("manifest").data then 3 else 0) +
  (if includes url ("playlist").data then 3 else 0) +
  (if includes url (".mpd").data then 8 else 0) +
  (if includes url (".mp4").data then 2 else 0) +
  (if segmentChunkTest url then -5 else 0)

/-- The additive score exactly as the specification words it: +10
`.m3u8`, +8 `.mpd`, +5 `master`, +4 `index`, +3 `manifest`, +3
`playlist`, +2 `.mp4`, −5 for the segment/chunk pattern. -/
def specPriorityScore (url : Str) : Int :=
  (if includes url (".m3u8").data then 10 else 0) +
  (if includes url (".mpd").data then 8 else 0) +
  (if includes url ("master").data then 5 else 0) +
  (if includes url ("index").data then 4 else 0) +
  (if includes url ("manifest").data then 3 else 0) +
  (if includes url ("playlist").data then 3 else 0) +
  (if includes url (".mp4").data then 2 else 0) +
  (if segmentChunkTest url then -5 else 0)

/-- The early-exit keyword predicate exactly as the specification words
it: the URL contains one of `master`, `index`, `manifest`, `playlist`,
`main`, case-insensitively. -/
def specIsMaster (url : Str) : Bool :=
  [("master").data, ("index").data, ("manifest").data, ("playlist").data, ("main").data].any
    (fun k => includes (lowerStr url) k)

/-- The same keyword predicate without `main`, the amendment for the
pool-based extractor. -/
def specIsMasterCore (url : Str) : Bool :=
  [("master").data, ("index").data, ("manifest").data, ("playlist").data].any
    (fun k => includes (lowerStr url) k)

/-- C1 counterexample: the pool-based extractor's `getStreamPriority`
does not implement the specification's additive score; on a `.mpd` URL it
returns 0 where the specification's formula gives 8. -/
theorem c1_priority_spec_mismatch :
    getStreamPriority ("https://cdn/video.mpd").data = 0 ∧
    specPriorityScore ("https://cdn/video.mpd").data = 8 := by
  decide

/-- C1 amended: the god-mode variant's `getStreamPriority` equals the
specification's additive score on every URL, while the pool-based
extractor's `getStreamPriority` equals that score minus the `.mpd` (+8),
`playlist` (+3) and `.mp4` (+2) contributions, which it omits. -/
theorem c1_priority_formulas (u : Str) :
    getStreamPriority_v2 u = specPriorityScore u ∧
    getStreamPriority u = specPriorityScore u -
      (if includes u (".mpd").data then 8 else 0) -
      (if includes u ("playlist").data then 3 else 0) -
      (if includes u (".mp4").data then 2 else 0) := by
  simp only [getStreamPriority, getStreamPriority_v2, specPriorityScore]
  constructor <;> (split_ifs <;> omega)

/-- C2: for the pool-based extractor's `getStreamPriority`, a URL
matching the segment/chunk pattern always scores strictly below a
manifest-pattern URL (one containing `master` and `.m3u8`, itself not
matching the segment pattern) whose other score contributions (`index`,
`manifest`) are equal to the segment URL's. -/
theorem c2_segment_below_manifest (s m : Str)
    (h1 : segmentChunkTest s = true)
    (h2 : segmentChunkTest m = false)
    (h3 : includes m ("master").data = true)
    (h4 : includes m (".m3u8").data = true)
    (h5 : includes s ("index").data = includes m ("index").data)
    (h6 : includes s ("manifest").data = includes m ("manifest").data) :
    getStreamPriority s < getStreamPriority m := by
  simp only [getStreamPriority]
  rw [h5, h6]
  simp only [h1, h2, h3, h4]
  norm_num
  split_ifs <;> omega

/-- C2 witness: the specification's own pair,
`priority("https://cdn/seg1.ts?x") < priority("https://cdn/master.m3u8")`. -/
theorem c2_segment_below_manifest_concrete :
    getStreamPriority ("https://cdn/seg1.ts?x").data <
      getStreamPriority ("https://cdn/master.m3u8").data :=
  c2_segment_below_manifest _ _ (by decide) (by decide) (by decide) (by decide)
    (by decide) (by decide)

/-- C9 counterexample: a URL containing `main` and none of the other
keywords does not satisfy the pool-based extractor's `isMasterPlaylist`,
although the specification's keyword set says it should. -/
theorem c9_main_keyword_missing :
    isMasterPlaylist ("https://cdn/main").data = false ∧
    specIsMaster ("https://cdn/main").data = true := by
  decide

/-- C9 amended: the god-mode variant's `isMasterPlaylist` agrees with the
specification's five-keyword set (including `main`) on every URL, while
the pool-based extractor's `isMasterPlaylist` implements only the
four-keyword set without `main`. -/
theorem c9_master_patterns (u : Str) :
    isMasterPlaylist_v2 u = specIsMaster u ∧
    isMasterPlaylist u = specIsMasterCore u :=
  ⟨rfl, rfl⟩

/-!
JavaScript `Map` objects keyed by URL strings are embedded as association
lists in insertion order; a `Map` never holds two entries for one key,
which the theorems carry as the `keysNodup` hypothesis.
-/

/-- `Map.get`: the value at a key, if present. -/
def mapGet {β : Type} : List (Str × β) → Str → Option β
  | [], _ => none
  | (k', v) :: t, k => if k' = k then some v else mapGet t k

/-- `Map.set`: overwrite the entry in place, or append a fresh one. -/
def mapSet {β : Type} : List (Str × β) → Str → β → List (Str × β)
  | [], k, v => [(k, v)]
  | (k', v') :: t, k, v => if k' = k then (k, v) :: t else (k', v') :: mapSet t k v

/-- `Map.delete`: remove the entry at a key. -/
def mapDelete {β : Type} : List (Str × β) → Str → List (Str × β)
  | [], _ => []
  | (k', v') :: t, k => if k' = k then t else (k', v') :: mapDelete t k

/-- The `Map` representation invariant: no key occurs twice. -/
def keysNodup {β : Type} (m : List (Str × β)) : Prop := (m.map Prod.fst).Nodup

theorem mapGet_mapSet_self {β : Type} (m : List (Str × β)) (k : Str) (v : β) :
    mapGet (mapSet m k v) k = some v := by
  induction m with
  | nil => simp [mapGet, mapSet]
  | cons hd t ih =>
    obtain ⟨k', v'⟩ := hd
    by_cases h : k' = k <;> simp [mapGet, mapSet, h, ih]

theorem mapGet_mapSet_ne {β : Type} (m : List (Str × β)) (k k' : Str) (v : β)
    (h : k' ≠ k) : mapGet (mapSet m k v) k' = mapGet m k' := by
  have h' : ¬ k = k' := fun he => h he.symm
  induction m with
  | nil => simp [mapGet, mapSet, h']
  | cons hd t ih =>
    obtain ⟨a, b⟩ := hd
    by_cases ha : a = k
    · subst ha
      simp [mapGet, mapSet, h']
    · simp only [mapSet, if_neg ha, mapGet]
      by_cases hb : a = k' <;> simp [hb, ih]

theorem mapGet_eq_none_of_not_mem {β : Type} (m : List (Str × β)) (k : Str)
    (h : k ∉ m.map Prod.fst) : mapGet m k = none := by
  induction m with
  | nil => rfl
  | cons hd t ih =>
    obtain ⟨a, b⟩ := hd
    simp only [List.map_cons, List.mem_cons] at h
    push_neg at h
    have ha : ¬ a = k := fun he => h.1 he.symm
    simp [mapGet, ha, ih h.2]

theorem mapGet_some_mem {β : Type} (m : List (Str × β)) (k : Str) (v : β)
    (h : mapGet m k = some v) : (k, v) ∈ m := by
  induction m with
  | nil => simp [mapGet] at h
  | cons hd t ih =>
    obtain ⟨a, b⟩ := hd
    by_cases ha : a = k
    · subst ha
      simp [mapGet] at h
      simp [h]
    · simp only [mapGet, if_neg ha] at h
      exact List.mem_cons_of_mem _ (ih h)

theorem mapGet_mapDelete_self {β : Type} (m : List (Str × β)) (k : Str)
    (hnd : keysNodup m) : mapGet (mapDelete m k) k = none := by
  induction m with
  | nil => rfl
  | cons hd t ih =>
    obtain ⟨a, b⟩ := hd
    simp only [keysNodup, List.map_cons, List.nodup_cons] at hnd
    by_cases ha : a = k
    · subst ha
      simp only [mapDelete, if_pos rfl]
      exact mapGet_eq_none_of_not_mem t a hnd.1
    · simp [mapDelete, ha, mapGet, ih hnd.2]

theorem mem_of_mem_mapDelete {β : Type} (m : List (Str × β)) (k : Str)
    (x : Str × β) (h : x ∈ mapDelete m k) : x ∈ m := by
  induction m with
  | nil => simp [mapDelete] at h
  | cons hd t ih =>
    obtain ⟨a, b⟩ := hd
    by_cases ha : a = k
    · subst ha
      simp only [mapDelete, if_pos rfl] at h
      exact List.mem_cons_of_mem _ h
    · simp only [mapDelete, if_neg ha, List.mem_cons] at h
      rcases h with h | h
      · simp [h]
      · exact List.mem_cons_of_mem _ (ih h)

theorem mem_of_mem_mapSet {β : Type} (m : List (Str × β)) (k : Str) (v : β)
    (x : Str × β) (h : x ∈ mapSet m k v) : x = (k, v) ∨ x ∈ m := by
  induction m with
  | nil =>
    simp only [mapSet, List.mem_singleton] at h
    exact Or.inl h
  | cons hd t ih =>
    obtain ⟨a, b⟩ := hd
    by_cases ha : a = k
    · rw [show mapSet ((a, b) :: t) k v = (k, v) :: t from by
        simp [mapSet, ha]] at h
      rcases List.mem_cons.mp h with h1 | h1
      · exact Or.inl h1
      · exact Or.inr (List.mem_cons_of_mem _ h1)
    · rw [show mapSet ((a, b) :: t) k v = (a, b) :: mapSet t k v from by
        simp [mapSet, ha]] at h
      rcases List.mem_cons.mp h with h1 | h1
      · exact Or.inr (List.mem_cons.mpr (Or.inl h1))
      · rcases ih h1 with h2 | h2
        · exact Or.inl h2
        · exact Or.inr (List.mem_cons_of_mem _ h2)

theorem keysNodup_mapSet {β : Type} (m : List (Str × β)) (k : Str) (v : β)
    (hnd : keysNodup m) : keysNodup (mapSet m k v) := by
  induction m with
  | nil => simp [mapSet, keysNodup]
  | cons hd t ih =>
    obtain ⟨a, b⟩ := hd
    simp only [keysNodup, List.map_cons, List.nodup_cons] at hnd
    by_cases ha : a = k
    · rw [show mapSet ((a, b) :: t) k v = (k, v) :: t from by simp [mapSet, ha]]
      simp only [keysNodup, List.map_cons, List.nodup_cons]
      rw [← ha]
      exact hnd
    · rw [show mapSet ((a, b) :: t) k v = (a, b) :: mapSet t k v from by
        simp [mapSet, ha]]
      simp only [keysNodup, List.map_cons, List.nodup_cons]
      refine ⟨?_, ih hnd.2⟩
      intro hmem
      rcases List.mem_map.mp hmem with ⟨x, hx, hfst⟩
      rcases mem_of_mem_mapSet t k v x hx with h1 | h1
      · apply ha
        rw [h1] at hfst
        exact hfst.symm
      · apply hnd.1
        rw [← hfst]
        exact List.mem_map_of_mem Prod.fst h1

theorem mapGet_filter_none {β : Type} (m : List (Str × β)) (k : Str)
    (p : Str × β → Bool) (h : mapGet m k = none) :
    mapGet (m.filter p) k = none := by
  induction m with
  | nil => rfl
  | cons hd t ih =>
    obtain ⟨a, b⟩ := hd
    by_cases ha : a = k
    · subst ha
      simp [mapGet] at h
    · simp only [mapGet, if_neg ha] at h
      by_cases hp : p (a, b) <;> simp [List.filter, hp, mapGet, ha, ih h]

theorem mapGet_filter_dropped {β : Type} (m : List (Str × β)) (k : Str) (v : β)
    (p : Str × β → Bool) (hnd : keysNodup m) (hv : mapGet m k = some v)
    (hp : p (k, v) = false) : mapGet (m.filter p) k = none := by
  induction m with
  | nil => simp [mapGet] at hv
  | cons hd t ih =>
    obtain ⟨a, b⟩ := hd
    simp only [keysNodup, List.map_cons, List.nodup_cons] at hnd
    by_cases ha : a = k
    · subst ha
      have hb : b = v := by simpa [mapGet] using hv
      subst hb
      simp only [List.filter, hp]
      exact mapGet_filter_none t a p (mapGet_eq_none_of_not_mem t a hnd.1)
    · simp only [mapGet, if_neg ha] at hv
      by_cases hpa : p (a, b) <;>
        simp [List.filter, hpa, mapGet, ha, ih hnd.2 hv]

/-- One stored cache entry: the result and its insertion timestamp
(`Date.now()` at `set` time). -/
structure CacheEntry (α : Type) where
  result : α
  timestamp : Int
deriving DecidableEq

/-- The `ResultCache` of `api/cache.js`: a `Map` from target URL to
entry, plus the fixed TTL (5 minutes in the source's constructor).
Time is passed explicitly to each operation in place of `Date.now()`. -/
structure ResultCache (α : Type) where
  cache : List (Str × CacheEntry α)
  ttl : Int
deriving DecidableEq

/-- The TTL the constructor fixes: `5 * 60 * 1000` milliseconds. -/
def RESULT_CACHE_TTL : Int := 5 * 60 * 1000

/-- `ResultCache.set(url, result)`: store the result with the current
timestamp. -/
def ResultCache.set {α : Type} (c : ResultCache α) (url : Str) (result : α)
    (now : Int) : ResultCache α :=
  { c with cache := mapSet c.cache url ⟨result, now⟩ }

/-- `ResultCache.get(url)`: absent on a missing key; on a present entry
older than the TTL, delete it and report absent (lazy expiry); otherwise
return the stored result.  Returns the possibly-updated cache alongside
the answer. -/
def ResultCache.get {α : Type} (c : ResultCache α) (url : Str) (now : Int) :
    Option α × ResultCache α :=
  match mapGet c.cache url with
  | none => (none, c)
  | some entry =>
    if now - entry.timestamp > c.ttl then
      (none, { c with cache := mapDelete c.cache url })
    else
      (some entry.result, c)

/-- `ResultCache.cleanup()`: the periodic sweep deleting every entry
older than the TTL. -/
def ResultCache.cleanup {α : Type} (c : ResultCache α) (now : Int) :
    ResultCache α :=
  { c with cache := c.cache.filter (fun e =>
      if now - e.2.timestamp > c.ttl then false else true) }

/-- C5: cache round-trip.  After `set k r t`, a `get k` at any time
within the TTL returns `r` and leaves the cache unchanged; once the
entry's age exceeds the TTL, `get` returns absent and removes the entry,
and the periodic `cleanup` sweep removes it as well. -/
theorem c5_cache_roundtrip {α : Type} (c : ResultCache α) (k : Str) (r : α)
    (t t' : Int) (hnd : keysNodup c.cache) :
    (t' - t ≤ c.ttl →
      ((c.set k r t).get k t').1 = some r ∧
      ((c.set k r t).get k t').2 = c.set k r t) ∧
    (t' - t > c.ttl →
      ((c.set k r t).get k t').1 = none ∧
      mapGet (((c.set k r t).get k t').2).cache k = none ∧
      mapGet (((c.set k r t).cleanup t').cache) k = none) := by
  have hget : mapGet (c.set k r t).cache k = some ⟨r, t⟩ :=
    mapGet_mapSet_self c.cache k ⟨r, t⟩
  have httl : (c.set k r t).ttl = c.ttl := rfl
  have hnd' : keysNodup (c.set k r t).cache := keysNodup_mapSet c.cache k _ hnd
  constructor
  · intro hlive
    have hcond : ¬ (t' - t > (c.set k r t).ttl) := by rw [httl]; omega
    simp [ResultCache.get, hget, hcond]
  · intro hexp
    have hcond : t' - t > (c.set k r t).ttl := by rw [httl]; omega
    refine ⟨?_, ?_, ?_⟩
    · simp [ResultCache.get, hget, hcond]
    · simp only [ResultCache.get, hget, if_pos hcond]
      exact mapGet_mapDelete_self _ k hnd'
    · simp only [ResultCache.cleanup]
      exact mapGet_filter_dropped _ k ⟨r, t⟩ _ hnd' hget (by simp [httl]; omega)

/-- C5 witness at the concrete TTL of the source (300000 ms): a fresh
`set` followed by an immediate `get` returns the result, and a `get` one
millisecond after the TTL reports absent. -/
theorem c5_cache_roundtrip_concrete :
    ((ResultCache.set ⟨[], RESULT_CACHE_TTL⟩ ("k").data 7 0).get ("k").data 0).1
      = some 7 ∧
    ((ResultCache.set ⟨[], RESULT_CACHE_TTL⟩ ("k").data 7 0).get ("k").data 300001).1
      = none :=
  ⟨((c5_cache_roundtrip ⟨[], RESULT_CACHE_TTL⟩ ("k").data 7 0 0
      (by simp [keysNodup])).1 (by decide)).1,
   ((c5_cache_roundtrip ⟨[], RESULT_CACHE_TTL⟩ ("k").data 7 0 300001
      (by simp [keysNodup])).2 (by decide)).1⟩

/-- The extraction result object: the success flag and, depending on it,
a stream URL or an error description.  Only the `success` flag steers the
caching control flow. -/
structure ExtractionResult where
  success : Bool
  stream_url : Str
  error : Str
deriving DecidableEq

/-- The caching wrapper `extractStreams` of the pool-based extractor:
consult the cache and short-circuit on a hit; otherwise run the internal
extraction raced against the 50 s timeout (its outcome — a result object,
or a thrown timeout — is the `internal` argument); store the result only
when `result.success` is set; a rejection propagates to the caller. -/
def extractStreams (cache : ResultCache ExtractionResult) (targetUrl : Str)
    (now : Int) (internal : Except Str ExtractionResult) :
    Except Str ExtractionResult × ResultCache ExtractionResult :=
  let g := cache.get targetUrl now
  match g.1 with
  | some cached => (Except.ok cached, g.2)
  | none =>
    match internal with
    | Except.error e => (Except.error e, g.2)
    | Except.ok result =>
      if result.success then (Except.ok result, g.2.set targetUrl result now)
      else (Except.ok result, g.2)

/-- The cache invariant the claim describes: every stored entry is a
successful result. -/
def cacheWF (c : ResultCache ExtractionResult) : Prop :=
  ∀ k e, (k, e) ∈ c.cache → e.result.success = true

/-- C6: only successful results are cached.  Under the cache invariant,
(1) a returned result is successful exactly when the cache afterwards
holds an entry for the key carrying that result; (2) when no successful
result is returned (failure or propagated timeout), every later `get` on
that key answers exactly as it would have on the original cache; and (3)
the invariant is preserved. -/
theorem c6_cache_only_success (cache : ResultCache ExtractionResult)
    (k : Str) (now : Int) (internal : Except Str ExtractionResult)
    (hnd : keysNodup cache.cache) (hwf : cacheWF cache) :
    (∀ r, (extractStreams cache k now internal).1 = Except.ok r →
      (r.success = true ↔
        ∃ e, mapGet ((extractStreams cache k now internal).2).cache k = some e ∧
          e.result = r)) ∧
    ((∀ r, (extractStreams cache k now internal).1 = Except.ok r →
        r.success = false) →
      ∀ t', now ≤ t' →
        (((extractStreams cache k now internal).2).get k t').1 =
          (cache.get k t').1) ∧
    cacheWF (extractStreams cache k now internal).2 := by
  rcases hg : mapGet cache.cache k with _ | entry
  · -- no entry for the key: the get is a miss and leaves the cache alone
    have hget : cache.get k now = (none, cache) := by
      simp [ResultCache.get, hg]
    rcases internal with e | result
    · -- internal extraction rejected: error propagates, nothing stored
      have hx : extractStreams cache k now (Except.error e) =
          (Except.error e, cache) := by
        simp [extractStreams, hget]
      refine ⟨?_, ?_, ?_⟩
      · intro r hr
        rw [hx] at hr
        exact absurd hr (by simp)
      · intro _ t' _
        rw [hx]
      · rw [hx]
        exact hwf
    · by_cases hs : result.success = true
      · -- fresh successful result: stored under the key
        have hx : extractStreams cache k now (Except.ok result) =
            (Except.ok result, cache.set k result now) := by
          simp [extractStreams, hget, hs]
        refine ⟨?_, ?_, ?_⟩
        · intro r hr
          rw [hx] at hr
          simp only [Option.some.injEq] at hr
          cases hr
          rw [hx]
          constructor
          · intro _
            exact ⟨⟨result, now⟩, mapGet_mapSet_self cache.cache k _, rfl⟩
          · intro _
            exact hs
        · intro hprem t' _
          have := hprem result (by rw [hx])
          rw [hs] at this
          exact absurd this (by simp)
        · rw [hx]
          intro k' e' hmem
          rcases mem_of_mem_mapSet cache.cache k ⟨result, now⟩ (k', e') hmem with
            h1 | h1
          · cases h1
            exact hs
          · exact hwf k' e' h1
      · -- failed result: returned but never stored
        have hx : extractStreams cache k now (Except.ok result) =
            (Except.ok result, cache) := by
          simp [extractStreams, hget, hs]
        refine ⟨?_, ?_, ?_⟩
        · intro r hr
          rw [hx] at hr
          simp only [Option.some.injEq] at hr
          cases hr
          rw [hx]
          constructor
          · intro h
            exact absurd h hs
          · rintro ⟨e, he, -⟩
            rw [hg] at he
            exact absurd he (by simp)
        · intro _ t' _
          rw [hx]
        · rw [hx]
          exact hwf
  · by_cases hexp : now - entry.timestamp > cache.ttl
    · -- expired entry: the get deletes it, then as in the miss case
      have hget : cache.get k now =
          (none, { cache with cache := mapDelete cache.cache k }) := by
        simp [ResultCache.get, hg, hexp]
      have hdel : mapGet (mapDelete cache.cache k) k = none :=
        mapGet_mapDelete_self cache.cache k hnd
      have hwfdel : cacheWF { cache with cache := mapDelete cache.cache k } :=
        fun k' e' hmem => hwf k' e' (mem_of_mem_mapDelete cache.cache k _ hmem)
      have hobs : ∀ t', now ≤ t' →
          (ResultCache.get { cache with cache := mapDelete cache.cache k } k t').1 =
            (cache.get k t').1 := by
        intro t' ht'
        have hexp' : t' - entry.timestamp > cache.ttl := by omega
        simp [ResultCache.get, hg, hdel, hexp']
      rcases internal with e | result
      · have hx : extractStreams cache k now (Except.error e) =
            (Except.error e, { cache with cache := mapDelete cache.cache k }) := by
          simp [extractStreams, hget]
        refine ⟨?_, ?_, ?_⟩
        · intro r hr
          rw [hx] at hr
          exact absurd hr (by simp)
        · intro _ t' ht'
          rw [hx]
          exact hobs t' ht'
        · rw [hx]
          exact hwfdel
      · by_cases hs : result.success = true
        · have hx : extractStreams cache k now (Except.ok result) =
              (Except.ok result,
                ResultCache.set { cache with cache := mapDelete cache.cache k }
                  k result now) := by
            simp [extractStreams, hget, hs]
          refine ⟨?_, ?_, ?_⟩
          · intro r hr
            rw [hx] at hr
            simp only [Option.some.injEq] at hr
            cases hr
            rw [hx]
            constructor
            · intro _
              exact ⟨⟨result, now⟩, mapGet_mapSet_self _ k _, rfl⟩
            · intro _
              exact hs
          · intro hprem t' _
            have := hprem result (by rw [hx])
            rw [hs] at this
            exact absurd this (by simp)
          · rw [hx]
            intro k' e' hmem
            rcases mem_of_mem_mapSet (mapDelete cache.cache k) k ⟨result, now⟩
                (k', e') hmem with h1 | h1
            · cases h1
              exact hs
            · exact hwfdel k' e' h1
        · have hx : extractStreams cache k now (Except.ok result) =
              (Except.ok result, { cache with cache := mapDelete cache.cache k }) := by
            simp [extractStreams, hget, hs]
          refine ⟨?_, ?_, ?_⟩
          · intro r hr
            rw [hx] at hr
            simp only [Option.some.injEq] at hr
            cases hr
            rw [hx]
            constructor
            · intro h
              exact absurd h hs
            · rintro ⟨e, he, -⟩
              rw [hdel] at he
              exact absurd he (by simp)
          · intro _ t' ht'
            rw [hx]
            exact hobs t' ht'
          · rw [hx]
            exact hwfdel
    · -- live hit: the cached result is returned and nothing changes
      have hget : cache.get k now = (some entry.result, cache) := by
        simp [ResultCache.get, hg, hexp]
      have hx : extractStreams cache k now internal =
          (Except.ok entry.result, cache) := by
        simp [extractStreams, hget]
      have hsucc : entry.result.success = true :=
        hwf k entry (mapGet_some_mem cache.cache k entry hg)
      refine ⟨?_, ?_, ?_⟩
      · intro r hr
        rw [hx] at hr
        simp only [Option.some.injEq] at hr
        cases hr
        rw [hx]
        constructor
        · intro _
          exact ⟨entry, hg, rfl⟩
        · intro _
          exact hsucc
      · intro hprem t' _
        have := hprem entry.result (by rw [hx])
        rw [hsucc] at this
        exact absurd this (by simp)
      · rw [hx]
        exact hwf

/-- C6 witness: on an empty cache, a successful internal result is
returned and stored; the stored entry carries exactly that result. -/
theorem c6_cache_only_success_concrete :
    (true = true ↔
      ∃ e, mapGet ((extractStreams ⟨[], RESULT_CACHE_TTL⟩ ("u").data 0
          (Except.ok ⟨true, ("s").data, []⟩)).2).cache ("u").data = some e ∧
        e.result = (⟨true, ("s").data, []⟩ : ExtractionResult)) :=
  (c6_cache_only_success ⟨[], RESULT_CACHE_TTL⟩ ("u").data 0
      (Except.ok ⟨true, ("s").data, []⟩) (by simp [keysNodup])
      (by intro k e hmem; exact absurd hmem (by simp))).1
    ⟨true, ("s").data, []⟩ rfl

/-!
The request admission queue (`api/requestQueue.js`).  `process(fn)` polls
every 500 ms while `running >= maxConcurrent`, then increments `running`,
awaits `fn` inside `try`, and decrements `running` in `finally`.  The
synchronous state changes are embedded as events: `enter` (admission plus
increment — only enabled below capacity, which is exactly the loop's exit
condition) and `exit` (the `finally` decrement, unconditional in the
source).  The `queue` array of the source is part of the state; no code
path ever pushes to it.
-/

/-- State of a `RequestQueue`: capacity, running counter, and the (never
populated) `queue` array. -/
structure QueueState where
  maxConcurrent : Nat
  running : Int
  queue : List Unit
deriving DecidableEq

/-- The two synchronous state changes of `process`. -/
inductive QEvent where
  | enter
  | exit
deriving DecidableEq

/-- One event against the queue state; `none` when an `enter` is blocked
by the capacity check (the submitter keeps polling instead). -/
def qStep (s : QueueState) (e : QEvent) : Option QueueState :=
  match e with
  | QEvent.enter =>
    if s.running < (s.maxConcurrent : Int) then
      some { s with running := s.running + 1 }
    else none
  | QEvent.exit => some { s with running := s.running - 1 }

/-- Run a sequence of events. -/
def qRun (s : QueueState) : List QEvent → Option QueueState
  | [] => some s
  | e :: t =>
    match qStep s e with
    | none => none
    | some s' => qRun s' t

/-- The freshly constructed queue: counter zero, empty queue array. -/
def qInit (max : Nat) : QueueState := ⟨max, 0, []⟩

/-- The polling interval of the wait loop, in milliseconds. -/
def QUEUE_POLL_INTERVAL : Nat := 500

/-- The record `getStats()` returns. -/
structure QueueStats where
  running : Int
  queued : Nat
  capacity : Nat
deriving DecidableEq

/-- `getStats()`: the running counter, the queue array's length, and the
capacity. -/
def QueueState.getStats (s : QueueState) : QueueStats :=
  ⟨s.running, s.queue.length, s.maxConcurrent⟩

/-- `exit` events are call-stack returns: in any real trace every prefix
has at least as many `enter`s as `exit`s.  `wellNested d tr` checks this
with `d` enters already outstanding. -/
def wellNested : Int → List QEvent → Bool
  | _, [] => true
  | d, QEvent.enter :: t => wellNested (d + 1) t
  | d, QEvent.exit :: t => if d ≤ 0 then false else wellNested (d - 1) t

theorem qRun_le_max (tr : List QEvent) : ∀ s0 s : QueueState,
    qRun s0 tr = some s → s0.running ≤ (s0.maxConcurrent : Int) →
    s.running ≤ (s.maxConcurrent : Int) ∧
    s.maxConcurrent = s0.maxConcurrent ∧ s.queue = s0.queue := by
  induction tr with
  | nil =>
    intro s0 s hrun hle
    cases hrun
    exact ⟨hle, rfl, rfl⟩
  | cons e t ih =>
    intro s0 s hrun hle
    cases e with
    | enter =>
      by_cases hg : s0.running < (s0.maxConcurrent : Int)
      · simp only [qRun, qStep, if_pos hg] at hrun
        have := ih _ s hrun (by simp; omega)
        simpa using this
      · simp [qRun, qStep, if_neg hg] at hrun
    | exit =>
      simp only [qRun, qStep] at hrun
      have := ih _ s hrun (by simp; omega)
      simpa using this

theorem qRun_nonneg (tr : List QEvent) : ∀ (d : Int) (s0 s : QueueState),
    wellNested d tr = true → 0 ≤ d → d ≤ s0.running →
    qRun s0 tr = some s → 0 ≤ s.running := by
  induction tr with
  | nil =>
    intro d s0 s _ hd hds hrun
    cases hrun
    omega
  | cons e t ih =>
    intro d s0 s hwn hd hds hrun
    cases e with
    | enter =>
      simp only [wellNested] at hwn
      by_cases hg : s0.running < (s0.maxConcurrent : Int)
      · simp only [qRun, qStep, if_pos hg] at hrun
        exact ih (d + 1) _ s hwn (by omega) (by simp; omega) hrun
      · simp [qRun, qStep, if_neg hg] at hrun
    | exit =>
      simp only [wellNested] at hwn
      by_cases hz : d ≤ 0
      · simp [if_pos hz] at hwn
      · simp only [if_neg hz] at hwn
        simp only [qRun, qStep] at hrun
        exact ih (d - 1) _ s hwn (by omega) (by simp; omega) hrun

/-- C4 (amended): in every reachable queue state the running counter is
at most `maxConcurrent` (an over-capacity submitter stays in the 500 ms
polling loop, i.e. no `enter` is enabled at capacity), `getStats()`
reports the capacity and always reports `queued = 0` because the queue
array is never populated, and in every call-stack-consistent trace the
counter is also non-negative. -/
theorem c4_capacity_invariant (max : Nat) (tr : List QEvent) (s : QueueState)
    (hrun : qRun (qInit max) tr = some s) :
    s.running ≤ (max : Int) ∧
    s.getStats.queued = 0 ∧ s.getStats.capacity = max ∧
    (wellNested 0 tr = true → 0 ≤ s.running) := by
  have h := qRun_le_max tr (qInit max) s hrun (by simp [qInit])
  refine ⟨?_, ?_, ?_, ?_⟩
  · have h1 := h.1
    rw [h.2.1] at h1
    simpa [qInit] using h1
  · simp [QueueState.getStats, h.2.2, qInit]
  · simp [QueueState.getStats, h.2.1, qInit]
  · intro hwn
    exact qRun_nonneg tr 0 (qInit max) s hwn le_rfl (by simp [qInit]) hrun

/-- C4 witness: with capacity 2, after two admissions the state is
reachable, both slots run, and `getStats()` reports `queued = 0`. -/
theorem c4_capacity_concrete :
    (⟨2, 2, []⟩ : QueueState).running ≤ ((2 : Nat) : Int) ∧
    (⟨2, 2, []⟩ : QueueState).getStats.queued = 0 ∧
    (⟨2, 2, []⟩ : QueueState).getStats.capacity = 2 ∧
    (wellNested 0 [QEvent.enter, QEvent.enter] = true →
      0 ≤ (⟨2, 2, []⟩ : QueueState).running) :=
  c4_capacity_invariant 2 [QEvent.enter, QEvent.enter] ⟨2, 2, []⟩ (by decide)

/-- C4 counterexample: submitting capacity + 1 blocking tasks on the
capacity-2 queue admits exactly two — the third `enter` is not enabled —
yet `getStats()` reports `queued = 0`, not the `k = 1` waiting submitter
the claim promises: the `queue` array is never populated. -/
theorem c4_stats_queued_zero :
    qRun (qInit 2) [QEvent.enter, QEvent.enter, QEvent.enter] = none ∧
    (qRun (qInit 2) [QEvent.enter, QEvent.enter]).map QueueState.getStats =
      some ⟨2, 0, 2⟩ ∧
    (0 : Nat) ≠ 1 := by
  decide

/-- JavaScript `try { body } finally { fin }`: the `finally` block runs
exactly once on both the normal and the throwing path, and the body's
outcome (value or rethrown exception) is preserved. -/
def tryFinallyE {σ ε α : Type} (body : Except ε α) (fin : σ → σ) (st : σ) :
    σ × Except ε α :=
  match body with
  | Except.ok a => (fin st, Except.ok a)
  | Except.error e => (fin st, Except.error e)

/-- `RequestQueue.process(fn)` after its wait loop admits the task:
increment `running`, run `fn` (its settled outcome is the `fn` argument),
and decrement `running` in the `finally` clause.  Returns the final state
and the propagated outcome. -/
def RequestQueue.process {ε α : Type} (s : QueueState) (fn : Except ε α) :
    QueueState × Except ε α :=
  let s1 := { s with running := s.running + 1 }
  tryFinallyE fn (fun st => { st with running := st.running - 1 }) s1

/-- C10: whether `fn` returns or throws, `process` increments the running
counter once and the `finally` clause decrements it exactly once, so the
counter returns to its pre-call value (never permanently consuming a
slot), stays non-negative when it was, leaves the queue array and the
capacity untouched, and propagates `fn`'s outcome — including its error —
to the caller. -/
theorem c10_process_slot_release {ε α : Type} (s : QueueState)
    (fn : Except ε α) :
    (RequestQueue.process s fn).2 = fn ∧
    (RequestQueue.process s fn).1.running = s.running ∧
    (RequestQueue.process s fn).1.maxConcurrent = s.maxConcurrent ∧
    (RequestQueue.process s fn).1.queue = s.queue ∧
    (0 ≤ s.running → 0 ≤ (RequestQueue.process s fn).1.running) := by
  cases fn with
  | ok a =>
    refine ⟨rfl, ?_, rfl, rfl, ?_⟩ <;>
      (simp [RequestQueue.process, tryFinallyE]; try omega)
  | error e =>
    refine ⟨rfl, ?_, rfl, rfl, ?_⟩ <;>
      (simp [RequestQueue.process, tryFinallyE]; try omega)

/-- C10 witness: a throwing task on a queue with one running slot leaves
the counter non-negative (back at its pre-call value). -/
theorem c10_process_slot_release_concrete :
    0 ≤ ((RequestQueue.process (⟨2, 1, []⟩ : QueueState)
      (Except.error ("boom").data : Except Str Nat)).1).running :=
  (c10_process_slot_release ⟨2, 1, []⟩
    (Except.error ("boom").data)).2.2.2.2 (by decide)

/-!
The browser pool (`api/browserPool.js`).  Browser handles are modelled as
numeric ids issued in creation order (`nextId` is the next fresh id).
The synchronous state changes of the pool methods become events:

* `init` — the initialisation loop, called at module load and from
  `acquire` only while `this.browsers` is empty; it pushes `poolSize`
  freshly created browsers into both `browsers` and `available`;
* `acquire connected` — `available` is non-empty: shift its head, check
  `isConnected()` (the `connected` flag is that check's outcome); when
  disconnected the code creates a replacement and pushes it onto
  `browsers`, without removing the dead member;
* `acquireTemp` — `available` is empty: a temporary browser is created
  and handed out without ever touching `browsers`;
* `release b temporary` — close the browser when flagged temporary or
  not a member of `browsers`, otherwise push it back onto `available`.
-/

/-- The pool's mutable state. -/
structure PoolState where
  poolSize : Nat
  browsers : List Nat
  available : List Nat
  temps : List Nat
  nextId : Nat
deriving DecidableEq

/-- The pool operations, as observable events. -/
inductive PoolEvent where
  | init
  | acquire (connected : Bool)
  | acquireTemp
  | release (b : Nat) (temporary : Bool)
deriving DecidableEq

/-- One pool operation; `none` when the operation's guard does not hold
(it would have taken a different code path). -/
def poolStep (s : PoolState) (e : PoolEvent) : Option PoolState :=
  match e with
  | PoolEvent.init =>
    if s.browsers = [] then
      some { s with
        browsers := s.browsers ++ (List.range s.poolSize).map (fun i => s.nextId + i),
        available := s.available ++ (List.range s.poolSize).map (fun i => s.nextId + i),
        nextId := s.nextId + s.poolSize }
    else none
  | PoolEvent.acquire connected =>
    match s.available with
    | [] => none
    | _ :: rest =>
      if connected then some { s with available := rest }
      else
        some { s with
          available := rest,
          browsers := s.browsers ++ [s.nextId],
          nextId := s.nextId + 1 }
  | PoolEvent.acquireTemp =>
    if s.available = [] then
      some { s with temps := s.temps ++ [s.nextId], nextId := s.nextId + 1 }
    else none
  | PoolEvent.release b temporary =>
    if temporary ∨ b ∉ s.browsers then some s
    else some { s with available := s.available ++ [b] }

/-- Run a sequence of pool operations. -/
def poolRun (s : PoolState) : List PoolEvent → Option PoolState
  | [] => some s
  | e :: t =>
    match poolStep s e with
    | none => none
    | some s' => poolRun s' t

/-- The freshly constructed pool (`new BrowserPool(2)` uses size 2). -/
def poolInitState (size : Nat) : PoolState := ⟨size, [], [], [], 0⟩

/-- Every pooled browser handed out by `acquire` was still connected. -/
def noDisconnects (tr : List PoolEvent) : Bool :=
  tr.all (fun e =>
    match e with
    | PoolEvent.acquire c => c
    | _ => true)

/-- The inductive pool invariant: the member list is bounded by the pool
size, all issued ids are below `nextId`, and temporaries are never
members. -/
def PoolInv (s : PoolState) : Prop :=
  s.browsers.length ≤ s.poolSize ∧
  (∀ b ∈ s.browsers, b < s.nextId) ∧
  (∀ t ∈ s.temps, t < s.nextId) ∧
  (∀ t ∈ s.temps, t ∉ s.browsers)

theorem poolStep_inv (s s' : PoolState) (e : PoolEvent)
    (hc : ∀ c, e = PoolEvent.acquire c → c = true)
    (hstep : poolStep s e = some s') (hinv : PoolInv s) :
    PoolInv s' ∧ s'.poolSize = s.poolSize := by
  obtain ⟨hlen, hbb, htb, hdisj⟩ := hinv
  cases e with
  | init =>
    by_cases hb : s.browsers = []
    · simp only [poolStep, if_pos hb] at hstep
      cases hstep
      refine ⟨⟨?_, ?_, ?_, ?_⟩, rfl⟩
      · simp [hb]
      · intro b hbmem
        simp only [hb, List.nil_append, List.mem_map, List.mem_range] at hbmem
        obtain ⟨i, hi, hbeq⟩ := hbmem
        simp only
        omega
      · intro t ht
        have := htb t ht
        simp only
        omega
      · intro t ht hmem
        have hlt := htb t ht
        simp only [hb, List.nil_append, List.mem_map, List.mem_range] at hmem
        obtain ⟨i, _, hbeq⟩ := hmem
        omega
    · simp [poolStep, if_neg hb] at hstep
  | acquire c =>
    have hcc := hc c rfl
    subst hcc
    cases hav : s.available with
    | nil => simp [poolStep, hav] at hstep
    | cons hd rest =>
      simp only [poolStep, hav, if_pos rfl] at hstep
      cases hstep
      exact ⟨⟨hlen, hbb, htb, hdisj⟩, rfl⟩
  | acquireTemp =>
    by_cases hav : s.available = []
    · simp only [poolStep, if_pos hav] at hstep
      cases hstep
      refine ⟨⟨hlen, ?_, ?_, ?_⟩, rfl⟩
      · intro b hbmem
        have := hbb b hbmem
        simp only
        omega
      · intro t ht
        simp only [List.mem_append, List.mem_singleton] at ht
        rcases ht with ht | ht
        · have := htb t ht
          simp only
          omega
        · simp only [ht]
          omega
      · intro t ht hmem
        simp only [List.mem_append, List.mem_singleton] at ht
        rcases ht with ht | ht
        · exact hdisj t ht hmem
        · subst ht
          exact absurd (hbb _ hmem) (by omega)
    · simp [poolStep, if_neg hav] at hstep
  | release b temp =>
    by_cases hrel : (temp = true) ∨ b ∉ s.browsers
    · simp only [poolStep, if_pos hrel] at hstep
      cases hstep
      exact ⟨⟨hlen, hbb, htb, hdisj⟩, rfl⟩
    · simp only [poolStep, if_neg hrel] at hstep
      cases hstep
      exact ⟨⟨hlen, hbb, htb, hdisj⟩, rfl⟩

theorem poolRun_inv (tr : List PoolEvent) : ∀ s0 s : PoolState,
    noDisconnects tr = true → poolRun s0 tr = some s → PoolInv s0 →
    PoolInv s ∧ s.poolSize = s0.poolSize := by
  induction tr with
  | nil =>
    intro s0 s _ hrun hinv
    cases hrun
    exact ⟨hinv, rfl⟩
  | cons e t ih =>
    intro s0 s hnd hrun hinv
    simp only [noDisconnects, List.all_cons, Bool.and_eq_true] at hnd
    cases hstep : poolStep s0 e with
    | none => simp [poolRun, hstep] at hrun
    | some s1 =>
      simp only [poolRun, hstep] at hrun
      have hc : ∀ c, e = PoolEvent.acquire c → c = true := by
        intro c hce
        have h1 := hnd.1
        rw [hce] at h1
        exact h1
      have h1 := poolStep_inv s0 s1 e hc hstep hinv
      have h2 := ih s1 s hnd.2 hrun h1.1
      exact ⟨h2.1, h2.2.trans h1.2⟩

/-- C3 counterexample: one disconnection defeats the membership bound.
Starting from the empty pool of size 2, initialisation fills the pool
with 2 members; an `acquire` that finds its popped browser disconnected
pushes a replacement onto `browsers` without removing the dead member, so
the managed pool has 3 members. -/
theorem c3_pool_overflow_on_disconnect :
    (poolRun (poolInitState 2) [PoolEvent.init, PoolEvent.acquire false]).map
      (fun s => s.browsers.length) = some 3 ∧
    ¬ (3 ≤ 2) := by
  decide

/-- C3 (amended): across any interleaving of initialise, acquire and
release in which every acquired pooled browser is still connected (the
replacement path never fires), the managed pool never holds more than
`poolSize` members, and temporary instances — created when none are
available — never become pool members. -/
theorem c3_pool_bounded_when_connected (size : Nat) (tr : List PoolEvent)
    (s : PoolState) (hnd : noDisconnects tr = true)
    (hrun : poolRun (poolInitState size) tr = some s) :
    s.browsers.length ≤ size ∧ ∀ t ∈ s.temps, t ∉ s.browsers := by
  have hinv0 : PoolInv (poolInitState size) := by
    refine ⟨by simp [poolInitState], ?_, ?_, ?_⟩ <;>
      (intro x hx; simp [poolInitState] at hx)
  have h := poolRun_inv tr (poolInitState size) s hnd hrun hinv0
  refine ⟨?_, h.1.2.2.2⟩
  have := h.1.1
  rw [h.2] at this
  exact this

/-- C3 witness: a concrete connected-only trace — warm-up, two acquires,
a temporary overflow acquire, one release — ends with the managed pool at
its bound of 2 members. -/
theorem c3_pool_bounded_concrete :
    (⟨2, [0, 1], [0], [2], 3⟩ : PoolState).browsers.length ≤ 2 :=
  (c3_pool_bounded_when_connected 2
    [PoolEvent.init, PoolEvent.acquire true, PoolEvent.acquire true,
      PoolEvent.acquireTemp, PoolEvent.release 0 false]
    ⟨2, [0, 1], [0], [2], 3⟩ (by decide) (by decide)).1

/-!
Network interception of the pool-based extractor: the `page.on('request')`
and `page.on('response')` handlers.  Only the `capturedStreams` map is
modelled (subtitle capture and the incremental best-stream pointer live in
separate state the claims do not touch); `originV` stands for the
precomputed `new URL(targetUrl).origin`, and an absent-or-empty `referer`
request header is `none` (JavaScript `||` falls back on the target URL
for both).
-/

/-- The headers recorded for a captured stream. -/
structure StreamHeaders where
  referer : Str
  userAgent : Str
  origin : Str
deriving DecidableEq

/-- One entry of the `capturedStreams` map. -/
structure StreamData where
  url : Str
  headers : StreamHeaders
  priority : Int
deriving DecidableEq

/-- `BLOCKED_RESOURCES` of the pool-based extractor. -/
def BLOCKED_RESOURCES : List Str :=
  [("image").data, ("stylesheet").data, ("font").data, ("imageset").data]

/-- `BLOCKED_DOMAINS` of the pool-based extractor. -/
def BLOCKED_DOMAINS : List Str :=
  [("googlesyndication.com").data, ("googleadservices.com").data,
   ("google-analytics.com").data, ("doubleclick.net").data,
   ("facebook.net").data, ("amazon-adsystem.com").data,
   ("popads.net").data, ("propellerads.com").data, ("hotjar.com").data]

/-- `isBlocked(url)`: some blocked domain occurs in the URL. -/
def isBlocked (url : Str) : Bool := BLOCKED_DOMAINS.any (fun d => includes url d)

/-- The `page.on('request')` handler's effect on `capturedStreams`: abort
blocked requests, and store stream-looking URLs unconditionally via
`capturedStreams.set(url, …)` with headers recomputed from this request. -/
def onRequest (targetUrl userAgent originV url resourceType : Str)
    (reqReferer : Option Str) (captured : List (Str × StreamData)) :
    List (Str × StreamData) :=
  if resourceType ∈ BLOCKED_RESOURCES ∨ isBlocked url = true then captured
  else if looksLikeStream url then
    mapSet captured url
      ⟨url, ⟨reqReferer.getD targetUrl, userAgent, originV⟩, getStreamPriority url⟩
  else captured

/-- JavaScript `\s` (whitespace class) characters. -/
def jsWhitespace (c : Char) : Bool :=
  let n := c.toNat
  n == 0x20 || n == 0x9 || n == 0xa || n == 0xb || n == 0xc || n == 0xd ||
  n == 0xa0 || n == 0x1680 || (0x2000 ≤ n && n ≤ 0x200a) ||
  n == 0x2028 || n == 0x2029 || n == 0x202f || n == 0x205f ||
  n == 0x3000 || n == 0xfeff

/-- A character the URL character class `[^\s"'<>]` accepts. -/
def urlAllowedChar (c : Char) : Bool :=
  !(jsWhitespace c || c == '"' || c == Char.ofNat 39 || c == '<' || c == '>')

/-- One anchored attempt of the JavaScript regex
`/https?:\/\/[^\s"'<>]+\.m3u8[^\s"'<>]*\/gi` at the start of `s`.  After
the scheme, the greedy character class consumes the maximal run of
allowed characters; backtracking succeeds exactly when `.m3u8` occurs in
that run after at least one character, and the trailing greedy class then
re-extends the match to the whole run.  Returns the matched text and the
remainder of the string. -/
def matchFrom (s : Str) : Option (Str × Str) :=
  match (if leadEq ("https://").data (lowerStr s) then some 8
    else if leadEq ("http://").data (lowerStr s) then some 7 else none) with
  | none => none
  | some n =>
    if includes (lowerStr ((((s.drop n).takeWhile urlAllowedChar)).drop 1)) (".m3u8").data then
      some (s.take n ++ (s.drop n).takeWhile urlAllowedChar,
        (s.drop n).drop ((s.drop n).takeWhile urlAllowedChar).length)
    else none

/-- Left-to-right global matching: try each position; after a match,
resume past it (`lastIndex`).  Fuel is the string length — every step
consumes at least one character. -/
def jsMatchGo : Nat → Str → List Str
  | 0, _ => []
  | _, [] => []
  | fuel + 1, c :: t =>
    match matchFrom (c :: t) with
    | some (m, rest) => m :: jsMatchGo fuel rest
    | none => jsMatchGo fuel t

/-- `text.match(/https?:\/\/[^\s"'<>]+\.m3u8[^\s"'<>]*\/gi) || []`. -/
def jsMatchM3u8 (s : Str) : List Str := jsMatchGo s.length s

/-- One body-scan insertion: a match already present in `capturedStreams`
is skipped; a new one is stored with the response's URL as `Referer`. -/
def bodyInsert (userAgent originV respUrl : Str)
    (cap : List (Str × StreamData)) (m : Str) : List (Str × StreamData) :=
  if (mapGet cap m).isSome then cap
  else mapSet cap m ⟨m, ⟨respUrl, userAgent, originV⟩, getStreamPriority m⟩

/-- The `page.on('response')` handler's effect on `capturedStreams`: for
JSON or JavaScript content types, scan the body text with the manifest
regex and insert every match not yet captured. -/
def onResponseBody (userAgent originV respUrl contentType body : Str)
    (captured : List (Str × StreamData)) : List (Str × StreamData) :=
  if includes contentType ("json").data || includes contentType ("javascript").data then
    (jsMatchM3u8 body).foldl (bodyInsert userAgent originV respUrl) captured
  else captured

theorem bodyFold_preserve (userAgent originV respUrl : Str) (ms : List Str) :
    ∀ (cap : List (Str × StreamData)) (k : Str) (v : StreamData),
    mapGet cap k = some v →
    mapGet (ms.foldl (bodyInsert userAgent originV respUrl) cap) k = some v := by
  induction ms with
  | nil =>
    intro cap k v h
    simpa using h
  | cons m t ih =>
    intro cap k v h
    simp only [List.foldl_cons]
    by_cases hs : (mapGet cap m).isSome
    · rw [show bodyInsert userAgent originV respUrl cap m = cap from by
        simp [bodyInsert, hs]]
      exact ih cap k v h
    · by_cases hk : m = k
      · subst hk
        rw [h] at hs
        simp at hs
      · rw [show bodyInsert userAgent originV respUrl cap m =
            mapSet cap m ⟨m, ⟨respUrl, userAgent, originV⟩, getStreamPriority m⟩ from by
          simp [bodyInsert, hs]]
        refine ih _ k v ?_
        rw [mapGet_mapSet_ne cap m k _ (fun he => hk he.symm)]
        exact h

theorem bodyFold_insert (userAgent originV respUrl : Str) (ms : List Str) :
    ∀ (cap : List (Str × StreamData)) (k : Str),
    k ∈ ms → mapGet cap k = none →
    mapGet (ms.foldl (bodyInsert userAgent originV respUrl) cap) k =
      some ⟨k, ⟨respUrl, userAgent, originV⟩, getStreamPriority k⟩ := by
  induction ms with
  | nil =>
    intro cap k hmem _
    simp at hmem
  | cons m t ih =>
    intro cap k hmem hnone
    simp only [List.foldl_cons]
    by_cases hk : m = k
    · subst hk
      rw [show bodyInsert userAgent originV respUrl cap m =
          mapSet cap m ⟨m, ⟨respUrl, userAgent, originV⟩, getStreamPriority m⟩ from by
        simp [bodyInsert, hnone]]
      exact bodyFold_preserve userAgent originV respUrl t _ m _
        (mapGet_mapSet_self cap m _)
    · have hmem' : k ∈ t := by
        rcases List.mem_cons.mp hmem with h | h
        · exact absurd h.symm hk
        · exact h
      by_cases hs : (mapGet cap m).isSome
      · rw [show bodyInsert userAgent originV respUrl cap m = cap from by
          simp [bodyInsert, hs]]
        exact ih cap k hmem' hnone
      · rw [show bodyInsert userAgent originV respUrl cap m =
            mapSet cap m ⟨m, ⟨respUrl, userAgent, originV⟩, getStreamPriority m⟩ from by
          simp [bodyInsert, hs]]
        refine ih _ k hmem' ?_
        rw [mapGet_mapSet_ne cap m k _ (fun he => hk he.symm)]
        exact hnone

/-- C7 counterexample: the request channel does overwrite first-seen
headers.  The same master-playlist URL sighted by two requests with
different `referer` headers ends with the second sighting's `Referer`,
not the first's. -/
theorem c7_request_channel_overwrites :
    (mapGet (onRequest ("https://page.example/watch").data ("UA").data
        ("https://page.example").data ("https://cdn.x.com/a/master.m3u8").data
        ("xhr").data (some ("https://page.example/frame1").data) [])
        ("https://cdn.x.com/a/master.m3u8").data).map
      (fun d => d.headers.referer) = some ("https://page.example/frame1").data ∧
    (mapGet (onRequest ("https://page.example/watch").data ("UA").data
        ("https://page.example").data ("https://cdn.x.com/a/master.m3u8").data
        ("xhr").data (some ("https://page.example/frame2").data)
        (onRequest ("https://page.example/watch").data ("UA").data
          ("https://page.example").data ("https://cdn.x.com/a/master.m3u8").data
          ("xhr").data (some ("https://page.example/frame1").data) []))
        ("https://cdn.x.com/a/master.m3u8").data).map
      (fun d => d.headers.referer) = some ("https://page.example/frame2").data ∧
    ¬ (("https://page.example/frame1").data = ("https://page.example/frame2").data) := by
  decide

/-- C7 (amended): deduplication is by URL and the candidate key set only
grows, but the two discovery channels differ: the response-body channel
never overwrites an existing entry (first-seen headers survive), while
the request channel stores unconditionally, replacing the entry for a
re-sighted URL with headers recomputed from the latest request. -/
theorem c7_dedup_amended (targetUrl userAgent originV url resourceType
    respUrl contentType body : Str) (reqReferer : Option Str)
    (cap : List (Str × StreamData)) (k : Str) (v : StreamData) :
    (mapGet cap k = some v →
      mapGet (onResponseBody userAgent originV respUrl contentType body cap) k =
        some v) ∧
    (mapGet cap k = some v →
      (mapGet (onRequest targetUrl userAgent originV url resourceType reqReferer cap)
        k).isSome = true) ∧
    (resourceType ∉ BLOCKED_RESOURCES → isBlocked url = false →
      looksLikeStream url = true →
      mapGet (onRequest targetUrl userAgent originV url resourceType reqReferer cap)
        url =
        some ⟨url, ⟨reqReferer.getD targetUrl, userAgent, originV⟩,
          getStreamPriority url⟩) := by
  refine ⟨?_, ?_, ?_⟩
  · intro h
    unfold onResponseBody
    split
    · exact bodyFold_preserve userAgent originV respUrl _ cap k v h
    · exact h
  · intro h
    unfold onRequest
    split
    · simp [h]
    · split
      · by_cases hk : url = k
        · subst hk
          rw [mapGet_mapSet_self]
          rfl
        · rw [mapGet_mapSet_ne cap url k _ (fun he => hk he.symm), h]
          rfl
      · simp [h]
  · intro h1 h2 h3
    have hng : ¬(resourceType ∈ BLOCKED_RESOURCES ∨ isBlocked url = true) := by
      rintro (h | h)
      · exact h1 h
      · rw [h2] at h
        exact Bool.false_ne_true h
    unfold onRequest
    rw [if_neg hng, if_pos h3]
    exact mapGet_mapSet_self cap url _

/-- C7 witness: a captured candidate is untouched by a later body-scan
sighting of the same URL from another response — its first-seen `Referer`
survives. -/
theorem c7_dedup_concrete :
    mapGet (onResponseBody ("UA").data ("https://page.example").data
        ("https://site.two/api").data ("application/json").data
        ("url: \"https://cdn.x.com/a/master.m3u8?t=1\"").data
        [(("https://cdn.x.com/a/master.m3u8?t=1").data,
          ⟨("https://cdn.x.com/a/master.m3u8?t=1").data,
            ⟨("https://site.one/api").data, ("UA").data,
              ("https://page.example").data⟩, 15⟩)])
      ("https://cdn.x.com/a/master.m3u8?t=1").data =
      some ⟨("https://cdn.x.com/a/master.m3u8?t=1").data,
        ⟨("https://site.one/api").data, ("UA").data,
          ("https://page.example").data⟩, 15⟩ :=
  (c7_dedup_amended ("https://page.example/watch").data ("UA").data
    ("https://page.example").data ("https://cdn.x.com/a/master.m3u8?t=1").data
    ("xhr").data ("https://site.two/api").data ("application/json").data
    ("url: \"https://cdn.x.com/a/master.m3u8?t=1\"").data
    (some ("https://site.one/api").data)
    [(("https://cdn.x.com/a/master.m3u8?t=1").data,
      ⟨("https://cdn.x.com/a/master.m3u8?t=1").data,
        ⟨("https://site.one/api").data, ("UA").data,
          ("https://page.example").data⟩, 15⟩)]
    ("https://cdn.x.com/a/master.m3u8?t=1").data
    ⟨("https://cdn.x.com/a/master.m3u8?t=1").data,
      ⟨("https://site.one/api").data, ("UA").data,
        ("https://page.example").data⟩, 15⟩).1 (by decide)

/-- C8 counterexample: a response of JSON content type whose body
contains the manifest-regex match does not always yield a candidate whose
`Referer` is that response's URL: when an earlier response already
captured the URL, the later sighting is skipped and the candidate keeps
the first response's `Referer` — no direct request for the URL was ever
observed. -/
theorem c8_referer_not_overwritten :
    (mapGet (onResponseBody ("UA").data ("https://page.example").data
        ("https://site.two/api").data ("application/json").data
        ("src: \"https://cdn.x.com/b/index.m3u8?t=2\"").data
        (onResponseBody ("UA").data ("https://page.example").data
          ("https://site.one/api").data ("application/json").data
          ("src: \"https://cdn.x.com/b/index.m3u8?t=2\"").data []))
        ("https://cdn.x.com/b/index.m3u8?t=2").data).map
      (fun d => d.headers.referer) = some ("https://site.one/api").data ∧
    ¬ (("https://site.one/api").data = ("https://site.two/api").data) := by
  decide

/-- C8 (amended): for every response whose content type includes `json`,
every match `m` the manifest regex finds in the body that is not yet
captured becomes a candidate whose URL is exactly `m` and whose `Referer`
is the response's own URL — in particular when no direct request for `m`
was ever observed. -/
theorem c8_body_scan_candidate (userAgent originV respUrl contentType body : Str)
    (captured : List (Str × StreamData)) (m : Str)
    (hct : includes contentType ("json").data = true)
    (hm : m ∈ jsMatchM3u8 body)
    (hnew : mapGet captured m = none) :
    mapGet (onResponseBody userAgent originV respUrl contentType body captured) m =
      some ⟨m, ⟨respUrl, userAgent, originV⟩, getStreamPriority m⟩ := by
  have hcond : (includes contentType ("json").data ||
      includes contentType ("javascript").data) = true := by
    simp [hct]
  unfold onResponseBody
  rw [if_pos hcond]
  exact bodyFold_insert userAgent originV respUrl _ captured m hm hnew

/-- C8 witness: the specification's scenario.  An `application/json`
response with body containing the quoted substring
`https://cdn.x.com/a/master.m3u8?t=1`, with nothing captured so far,
produces a candidate with exactly that URL and the response's URL as
`Referer`. -/
theorem c8_body_scan_scenario :
    mapGet (onResponseBody ("UA").data ("https://page.example").data
        ("https://api.site/info").data ("application/json").data
        ("url: \"https://cdn.x.com/a/master.m3u8?t=1\"").data [])
      ("https://cdn.x.com/a/master.m3u8?t=1").data =
      some ⟨("https://cdn.x.com/a/master.m3u8?t=1").data,
        ⟨("https://api.site/info").data, ("UA").data,
          ("https://page.example").data⟩,
        getStreamPriority ("https://cdn.x.com/a/master.m3u8?t=1").data⟩ :=
  c8_body_scan_candidate ("UA").data ("https://page.example").data
    ("https://api.site/info").data ("application/json").data
    ("url: \"https://cdn.x.com/a/master.m3u8?t=1\"").data []
    ("https://cdn.x.com/a/master.m3u8?t=1").data
    (by decide) (by decide) rfl
